/-
Verification development for the Dooplechat signaling server.

This file gives a shallow embedding, in Lean 4, of the in-memory
matchmaking engine (`backend/dist/matchmaking.js`) and of the WebSocket
session-lifecycle handlers of the signaling server (join / leave / next /
report / transport close, including the deferred grace-period match
attempts scheduled with a 1 s timer).  JavaScript `Map`s are modelled as
insertion-ordered association lists, JavaScript `Set`s as
insertion-ordered duplicate-free lists, and the two deferred-timer
closures as explicitly stored pending tasks that fire in scheduling
order.  Connection identity (the `ws` object) is modelled as a natural
number; outbound `ws.send` calls are collected as a list of messages.
-/
import Mathlib

namespace Doople

/-- Model of JavaScript `String.prototype.toLowerCase()` (character-wise
lower-casing), written over the character list so that it evaluates in
the kernel. -/
def jsToLower (s : String) : String :=
  String.mk (s.data.map Char.toLower)

/-- Model of JavaScript `String.prototype.trim()` (strip leading and
trailing whitespace), written over the character list so that it
evaluates in the kernel. -/
def jsTrim (s : String) : String :=
  String.mk
    (((s.data.dropWhile Char.isWhitespace).reverse.dropWhile
        Char.isWhitespace).reverse)

/-- Chat mode, source `types.ts`: `type ChatMode = "text" | "video"`. -/
inductive ChatMode where
  | text
  | video
  deriving DecidableEq, Repr

/-- Session record, source `types.ts` `ClientInfo`.  The `ws` field is the
connection identity (an opaque object in the source, a `Nat` here);
`ip` is the remote address string. -/
structure ClientInfo where
  sessionId : String
  mode : ChatMode
  interests : List String
  pairedWith : Option String
  ws : Nat
  ip : String
  deriving DecidableEq, Repr

/-- Outbound messages, source `types.ts` `OutgoingMessage`, tagged with the
target connection.  Relay payloads (`offer`/`answer`/`ice`/`message`) are
not needed by any claim and are omitted. -/
inductive OutMsg where
  | paired (ws : Nat) (peerSessionId : String)
  | waiting (ws : Nat)
  | error (ws : Nat) (code : String)
  | debug (ws : Nat) (message : String)
  deriving DecidableEq, Repr

/-! ### JavaScript `Map` and `Set` models

A JS `Map` preserves insertion order; `set` on an existing key replaces
the value in place, otherwise appends.  A JS `Set` holds no duplicates;
`add` appends a missing element, `delete` removes it. -/

/-- `Map.get`. -/
def mapGet {α : Type} : List (String × α) → String → Option α
  | [], _ => none
  | (k', v) :: rest, k => if k' = k then some v else mapGet rest k

/-- `Map.set`: replace in place if the key exists, else append. -/
def mapSet {α : Type} : List (String × α) → String → α → List (String × α)
  | [], k, v => [(k, v)]
  | (k', v') :: rest, k, v =>
      if k' = k then (k, v) :: rest else (k', v') :: mapSet rest k v

/-- `Map.delete`. -/
def mapDelete {α : Type} : List (String × α) → String → List (String × α)
  | [], _ => []
  | (k', v) :: rest, k =>
      if k' = k then mapDelete rest k else (k', v) :: mapDelete rest k

/-- `Set.add`. -/
def setAdd (s : List String) (x : String) : List String :=
  if x ∈ s then s else s ++ [x]

/-- `Set.delete`. -/
def setDelete : List String → String → List String
  | [], _ => []
  | y :: rest, x => if y = x then setDelete rest x else y :: setDelete rest x

/-! ### Matchmaking queues, source `matchmaking.js` -/

/-- The queue set, source `createQueues`: per-mode FIFO lists of session
ids plus per-mode interest pools (interest key to set of session ids). -/
structure MatchmakingQueues where
  waiting_text : List String
  waiting_video : List String
  interestPoolsText : List (String × List String)
  interestPoolsVideo : List (String × List String)
  deriving DecidableEq, Repr

/-- Source `createQueues()`. -/
def createQueues : MatchmakingQueues :=
  { waiting_text := [], waiting_video := [],
    interestPoolsText := [], interestPoolsVideo := [] }

/-- The mode's FIFO (`const waiting = isVideo ? ... : ...`). -/
def waitingOf (q : MatchmakingQueues) : ChatMode → List String
  | .text => q.waiting_text
  | .video => q.waiting_video

/-- The mode's interest pools (`const pools = isVideo ? ... : ...`). -/
def poolsOf (q : MatchmakingQueues) : ChatMode → List (String × List String)
  | .text => q.interestPoolsText
  | .video => q.interestPoolsVideo

/-- Loop body sequence of the pool-insertion half of `enqueueClient`: for
each declared interest, key `interest.trim().toLowerCase()`, skip empty
keys, add the session id to the pool set. -/
def addPoolsGo (sid : String) : List String → List (String × List String) →
    List (String × List String)
  | [], ps => ps
  | i :: rest, ps =>
      let key := jsToLower (jsTrim i)
      addPoolsGo sid rest
        (if key = "" then ps
         else mapSet ps key (setAdd ((mapGet ps key).getD []) sid))

/-- The interest-pool half of `enqueueClient`. -/
def addInterestPools (pools : List (String × List String)) (c : ClientInfo) :
    List (String × List String) :=
  addPoolsGo c.sessionId c.interests pools

/-- Source `enqueueClient`: add to the interest pools, then push the
session id onto the tail of the mode's FIFO.  Note there is no
already-queued guard in the source. -/
def enqueueClient (q : MatchmakingQueues) (c : ClientInfo) : MatchmakingQueues :=
  match c.mode with
  | .text =>
      { q with interestPoolsText := addInterestPools q.interestPoolsText c,
               waiting_text := q.waiting_text ++ [c.sessionId] }
  | .video =>
      { q with interestPoolsVideo := addInterestPools q.interestPoolsVideo c,
               waiting_video := q.waiting_video ++ [c.sessionId] }

/-- Loop body sequence of the pool-deletion half of `removeFromQueues`:
for each declared interest, key `interest.toLowerCase()`, delete the
session id from the pool; a pool that becomes empty is discarded. -/
def removePoolsGo (sid : String) : List String → List (String × List String) →
    List (String × List String)
  | [], ps => ps
  | i :: rest, ps =>
      let key := jsToLower i
      removePoolsGo sid rest
        (match mapGet ps key with
         | none => ps
         | some set =>
             let set' := setDelete set sid
             if set'.isEmpty then mapDelete ps key else mapSet ps key set')

/-- The interest-pool half of `removeFromQueues`. -/
def removeInterestPools (pools : List (String × List String)) (c : ClientInfo) :
    List (String × List String) :=
  removePoolsGo c.sessionId c.interests pools

/-- Source `removeFromQueues`: splice the session id out of the mode's
FIFO (first occurrence, no-op when absent) and delete it from the
interest pools. -/
def removeFromQueues (q : MatchmakingQueues) (c : ClientInfo) : MatchmakingQueues :=
  match c.mode with
  | .text =>
      { q with waiting_text := q.waiting_text.erase c.sessionId,
               interestPoolsText := removeInterestPools q.interestPoolsText c }
  | .video =>
      { q with waiting_video := q.waiting_video.erase c.sessionId,
               interestPoolsVideo := removeInterestPools q.interestPoolsVideo c }

/-- Inner loop of the candidate-set construction of `tryMatch`: add every
pool member other than the client itself to the accumulated set. -/
def candAddGo (self : String) : List String → List String → List String
  | [], acc => acc
  | sid :: rest, acc =>
      candAddGo self rest (if sid = self then acc else setAdd acc sid)

/-- Outer loop of the candidate-set construction of `tryMatch`: union over
the client's interests of the matching pool's members. -/
def candidateGo (pools : List (String × List String)) (self : String) :
    List String → List String → List String
  | [], acc => acc
  | i :: rest, acc =>
      candidateGo pools self rest
        (match mapGet pools (jsToLower i) with
         | none => acc
         | some set => candAddGo self set acc)

/-- The candidate set of `tryMatch`: union over the client's interests of
the matching pool's members, excluding the client itself. -/
def candidateSetOf (pools : List (String × List String)) (c : ClientInfo) :
    List String :=
  candidateGo pools c.sessionId c.interests []

/-- The interest-branch scan of `tryMatch`: walk the FIFO in arrival
order; skip the client itself; for a FIFO id in the candidate set, look
it up in the registry and skip it unless it is registered with the same
mode; return the first survivor together with its registry record. -/
def scanInterest (reg : List (String × ClientInfo)) (c : ClientInfo)
    (cand : List String) : List String → Option (String × ClientInfo)
  | [] => none
  | sid :: rest =>
      if sid = c.sessionId then scanInterest reg c cand rest
      else if sid ∈ cand then
        match mapGet reg sid with
        | some other =>
            if other.mode = c.mode then some (sid, other)
            else scanInterest reg c cand rest
        | none => scanInterest reg c cand rest
      else scanInterest reg c cand rest

/-- The fallback scan of `tryMatch`: first FIFO id that is not the client
and is registered with the same mode. -/
def scanFallback (reg : List (String × ClientInfo)) (c : ClientInfo) :
    List String → Option (String × ClientInfo)
  | [] => none
  | sid :: rest =>
      if sid = c.sessionId then scanFallback reg c rest
      else
        match mapGet reg sid with
        | some other =>
            if other.mode = c.mode then some (sid, other)
            else scanFallback reg c rest
        | none => scanFallback reg c rest

/-- Partner selection of `tryMatch`: build the interest candidate set; if
non-empty, scan the FIFO for the earliest candidate; otherwise (or if no
candidate survived the scan) fall back to plain FIFO scanning. -/
def tryMatchPick (q : MatchmakingQueues) (c : ClientInfo)
    (reg : List (String × ClientInfo)) : Option (String × ClientInfo) :=
  let waiting := waitingOf q c.mode
  let cand := candidateSetOf (poolsOf q c.mode) c
  match (if cand.isEmpty then none else scanInterest reg c cand waiting) with
  | some hit => some hit
  | none => scanFallback reg c waiting

/-- Source `tryMatch`: pick a partner; on success both participants are
removed from all queues/pools of their mode and the pair
`{a := client.sessionId, b := sid}` is returned with the mutated queues;
on failure the queues are untouched. -/
def tryMatch (q : MatchmakingQueues) (c : ClientInfo)
    (reg : List (String × ClientInfo)) :
    Option ((String × String) × MatchmakingQueues) :=
  match tryMatchPick q c reg with
  | none => none
  | some (sid, other) =>
      some ((c.sessionId, sid), removeFromQueues (removeFromQueues q c) other)

/-! ### Signaling server, source `server.ts` -/

/-- Source `isValidUuidV4`: the regex
`^[0-9a-f]{8}-[0-9a-f]{4}-4[0-9a-f]{3}-[89ab][0-9a-f]{3}-[0-9a-f]{12}$/i`,
checked position by position over the character list. -/
def isHexDigit (c : Char) : Bool :=
  c.isDigit || ('a' ≤ c && c ≤ 'f') || ('A' ≤ c && c ≤ 'F')

/-- Position check for one character of the UUID pattern. -/
def uuidCharOk (i : Nat) (c : Char) : Bool :=
  if i = 8 || i = 13 || i = 18 || i = 23 then c = '-'
  else if i = 14 then c = '4'
  else if i = 19 then
    c = '8' || c = '9' || c = 'a' || c = 'b' || c = 'A' || c = 'B'
  else isHexDigit c

/-- Source `isValidUuidV4`. -/
def isValidUuidV4 (s : String) : Bool :=
  s.data.length = 36 &&
    (List.range 36).all (fun i => uuidCharOk i (s.data.getD i ' '))

/-- Source `sanitizeInterests`: trim and lower-case each entry, drop empty
tokens, keep the first 10.  (The input is typed as a string list here;
the source maps non-string entries to `""`, which the filter drops.)
Note the source performs no de-duplication. -/
def sanitizeInterests (interests : List String) : List String :=
  ((interests.map (fun x => jsToLower (jsTrim x))).filter
      (fun s => s ≠ "")).take 10

/-- The whole mutable state of the server: the session registry
(`sessionIdToClient`), the queues, the report queue (entries reduced to
session id and reason; wall-clock time and IP are environment inputs),
and the two kinds of pending 1 s timers.  A join timer stores the
captured `(ws, sessionId)`; a next timer stores the captured `ClientInfo`
object snapshot — faithfully to the source, where the `join` handler's
closure re-reads the registry while the `next` handler's closure uses the
captured object directly.  All timers use the same 1 s delay, so they
fire in scheduling order (FIFO). -/
structure ServerState where
  sessionIdToClient : List (String × ClientInfo)
  queues : MatchmakingQueues
  reportsQueue : List (String × String)
  pendingJoinTimers : List (Nat × String)
  pendingNextTimers : List ClientInfo
  deriving DecidableEq, Repr

/-- The empty freshly started server. -/
def initialState : ServerState :=
  { sessionIdToClient := [], queues := createQueues, reportsQueue := [],
    pendingJoinTimers := [], pendingNextTimers := [] }

/-- The shared tail of every match attempt: given `tryMatch`'s result,
look both ids up in the registry; if both are present set `pairedWith`
symmetrically and emit the two `paired` messages; if either is missing,
keep the (already mutated) queues and emit nothing; if there was no
match, emit `waiting` to `failWs`. -/
def completeMatch (st : ServerState)
    (attempt : Option ((String × String) × MatchmakingQueues))
    (failWs : Nat) : ServerState × List OutMsg :=
  match attempt with
  | none => (st, [.waiting failWs])
  | some ((aId, bId), q') =>
      match mapGet st.sessionIdToClient aId, mapGet st.sessionIdToClient bId with
      | some a, some b =>
          let reg1 := mapSet st.sessionIdToClient aId
            { a with pairedWith := some b.sessionId }
          let reg2 := mapSet reg1 bId { b with pairedWith := some a.sessionId }
          ({ st with sessionIdToClient := reg2, queues := q' },
           [.paired a.ws b.sessionId, .paired b.ws a.sessionId])
      | _, _ => ({ st with queues := q' }, [])

/-- The `attemptMatch` closure created by the `join` handler: re-read the
current registry record for the captured session id (return silently if
it is gone), run `tryMatch` on it, and complete; on no match, send
`waiting` to the captured connection. -/
def joinAttempt (st : ServerState) (ws : Nat) (sessionId : String) :
    ServerState × List OutMsg :=
  match mapGet st.sessionIdToClient sessionId with
  | none => (st, [])
  | some current =>
      completeMatch st (tryMatch st.queues current st.sessionIdToClient) ws

/-- The `join` handler: validate the session id, sanitize the interests,
store the record (JS `Map.set` — an existing record with the same id is
silently replaced), enqueue it, and either run `attemptMatch` at once
(no interests) or schedule it on the 1 s grace timer. -/
def handleJoin (st : ServerState) (ws : Nat) (ip : String) (sessionId : String)
    (mode : ChatMode) (interests : List String) : ServerState × List OutMsg :=
  if ¬ isValidUuidV4 sessionId then (st, [.error ws "invalid_sessionId"])
  else
    let ints := sanitizeInterests interests
    let info : ClientInfo :=
      { sessionId := sessionId, mode := mode, interests := ints,
        pairedWith := none, ws := ws, ip := ip }
    let st1 := { st with
      sessionIdToClient := mapSet st.sessionIdToClient sessionId info,
      queues := enqueueClient st.queues info }
    if ints.length > 0 then
      ({ st1 with pendingJoinTimers := st1.pendingJoinTimers ++ [(ws, sessionId)] },
       [])
    else joinAttempt st1 ws sessionId

/-- The `leave` handler: if the session is registered, clear a paired
peer's `pairedWith` and notify it, remove the leaver from the queues, and
delete its registry record. -/
def handleLeave (st : ServerState) (sessionId : String) :
    ServerState × List OutMsg :=
  match mapGet st.sessionIdToClient sessionId with
  | none => (st, [])
  | some c =>
      let (reg1, outs) :=
        match c.pairedWith with
        | some p =>
            match mapGet st.sessionIdToClient p with
            | some peer =>
                (mapSet st.sessionIdToClient p { peer with pairedWith := none },
                 [OutMsg.debug peer.ws "peer_left"])
            | none => (st.sessionIdToClient, [])
        | none => (st.sessionIdToClient, [])
      ({ st with sessionIdToClient := mapDelete reg1 sessionId,
                 queues := removeFromQueues st.queues c }, outs)

/-- The deferred `tryMatch` closure created by the `next` handler: run
`tryMatch` directly on the captured `ClientInfo` object — with no check
that the session is still registered — then complete; on no match, send
`waiting` to the captured object's connection. -/
def nextDeferred (st : ServerState) (c : ClientInfo) : ServerState × List OutMsg :=
  completeMatch st (tryMatch st.queues c st.sessionIdToClient) c.ws

/-- The `next` handler: tear down an existing pairing (clear both sides'
`pairedWith`, notify the peer, re-enqueue the peer at the tail), move the
requester to the tail of its FIFO, and re-attempt matching — deferred on
the 1 s timer when the requester has interests, immediately otherwise. -/
def handleNext (st : ServerState) (sessionId : String) :
    ServerState × List OutMsg :=
  match mapGet st.sessionIdToClient sessionId with
  | none => (st, [])
  | some c =>
      let (reg1, q1, outs1, c1) :=
        match c.pairedWith with
        | some p =>
            let c' := { c with pairedWith := none }
            match mapGet st.sessionIdToClient p with
            | some peer =>
                let peer' := { peer with pairedWith := none }
                (mapSet (mapSet st.sessionIdToClient p peer') sessionId c',
                 enqueueClient st.queues peer',
                 [OutMsg.debug peer.ws "peer_skipped"], c')
            | none =>
                (mapSet st.sessionIdToClient sessionId c', st.queues, [], c')
        | none => (st.sessionIdToClient, st.queues, [], c)
      let st2 := { st with sessionIdToClient := reg1,
                           queues := enqueueClient (removeFromQueues q1 c1) c1 }
      if c1.interests.length > 0 then
        ({ st2 with pendingNextTimers := st2.pendingNextTimers ++ [c1] }, outs1)
      else
        let (st3, outs2) := nextDeferred st2 c1
        (st3, outs1 ++ outs2)

/-- The `report` handler: append the report, and if the reporter is
registered and paired, clear both sides' `pairedWith` and notify the
peer.  The reporter's registry record is not deleted and the queues are
untouched. -/
def handleReport (st : ServerState) (sessionId reason : String) :
    ServerState × List OutMsg :=
  let st0 := { st with reportsQueue := st.reportsQueue ++ [(sessionId, reason)] }
  match mapGet st0.sessionIdToClient sessionId with
  | some c =>
      match c.pairedWith with
      | some p =>
          let (reg1, outs) :=
            match mapGet st0.sessionIdToClient p with
            | some peer =>
                (mapSet st0.sessionIdToClient p { peer with pairedWith := none },
                 [OutMsg.debug peer.ws "peer_reported"])
            | none => (st0.sessionIdToClient, [])
          ({ st0 with sessionIdToClient :=
                mapSet reg1 sessionId { c with pairedWith := none } }, outs)
      | none => (st0, [])
  | none => (st0, [])

/-- Reverse lookup of the `close` handler: the first registry entry whose
connection is `ws` (the source iterates `entries()` and breaks). -/
def findByWs (reg : List (String × ClientInfo)) (ws : Nat) :
    Option (String × ClientInfo) :=
  reg.find? (fun p => p.2.ws = ws)

/-- The `ws.on("close")` handler: resolve the session by connection; if it
was paired, clear the peer's `pairedWith`, notify it, and re-enqueue the
peer; then remove the closing session from the queues and delete its
registry record. -/
def handleClose (st : ServerState) (ws : Nat) : ServerState × List OutMsg :=
  match findByWs st.sessionIdToClient ws with
  | none => (st, [])
  | some (sid, c) =>
      let (reg1, q1, outs) :=
        match c.pairedWith with
        | some p =>
            match mapGet st.sessionIdToClient p with
            | some peer =>
                let peer' := { peer with pairedWith := none }
                (mapSet st.sessionIdToClient p peer',
                 enqueueClient st.queues peer',
                 [OutMsg.debug peer.ws "peer_disconnected"])
            | none => (st.sessionIdToClient, st.queues, [])
        | none => (st.sessionIdToClient, st.queues, [])
      ({ st with sessionIdToClient := mapDelete reg1 sid,
                 queues := removeFromQueues q1 c }, outs)

/-- Fire the oldest pending join grace timer (all timers share the same
1 s delay, so they fire in scheduling order). -/
def fireJoinTimer (st : ServerState) : ServerState × List OutMsg :=
  match st.pendingJoinTimers with
  | [] => (st, [])
  | (ws, sessionId) :: rest =>
      joinAttempt { st with pendingJoinTimers := rest } ws sessionId

/-- Fire the oldest pending next grace timer. -/
def fireNextTimer (st : ServerState) : ServerState × List OutMsg :=
  match st.pendingNextTimers with
  | [] => (st, [])
  | c :: rest => nextDeferred { st with pendingNextTimers := rest } c

/-- One inbound event of the serialized processing model: a
session-control message, a transport close, or a timer expiry. -/
inductive Event where
  | join (ws : Nat) (ip sessionId : String) (mode : ChatMode)
      (interests : List String)
  | leave (sessionId : String)
  | next (sessionId : String)
  | report (sessionId reason : String)
  | close (ws : Nat)
  | joinTimer
  | nextTimer
  deriving DecidableEq, Repr

/-- Dispatch one event. -/
def step (st : ServerState) : Event → ServerState × List OutMsg
  | .join ws ip sessionId mode interests => handleJoin st ws ip sessionId mode interests
  | .leave sessionId => handleLeave st sessionId
  | .next sessionId => handleNext st sessionId
  | .report sessionId reason => handleReport st sessionId reason
  | .close ws => handleClose st ws
  | .joinTimer => fireJoinTimer st
  | .nextTimer => fireNextTimer st

/-- Run a sequence of events from a state, discarding outputs. -/
def run (st : ServerState) : List Event → ServerState
  | [] => st
  | e :: es => run (step st e).1 es

/-- Decidable check of the pairing-symmetry invariant over a registry:
every session whose `pairedWith` is set points at a registered session
that points back. -/
def pairingSymmetricB (reg : List (String × ClientInfo)) : Bool :=
  reg.all (fun p =>
    match p.2.pairedWith with
    | none => true
    | some q =>
        match mapGet reg q with
        | some peer => peer.pairedWith = some p.1
        | none => false)

/-! ### Basic lemmas about the map and set models -/

/-- A decidable way to say that an optional value exists and satisfies a
predicate. -/
def optHolds {α : Type} (o : Option α) (P : α → Prop) : Prop :=
  match o with
  | none => False
  | some a => P a

instance {α : Type} (o : Option α) (P : α → Prop) [∀ a, Decidable (P a)] :
    Decidable (optHolds o P) := by
  cases o with
  | none => exact isFalse (fun h => h)
  | some a => exact inferInstanceAs (Decidable (P a))

theorem optHolds_elim {α : Type} {o : Option α} {P : α → Prop} (h : optHolds o P) :
    ∃ a, o = some a ∧ P a := by
  cases o with
  | none => exact absurd h (fun hh => hh)
  | some a => exact ⟨a, rfl, h⟩

theorem mapGet_mapSet_self {α : Type} (m : List (String × α)) (k : String) (v : α) :
    mapGet (mapSet m k v) k = some v := by
  induction m with
  | nil => simp [mapSet, mapGet]
  | cons p rest ih =>
      obtain ⟨k', v'⟩ := p
      by_cases h : k' = k
      · simp [mapSet, h, mapGet]
      · simp [mapSet, h, mapGet, ih]

theorem mapGet_mapSet_ne {α : Type} (m : List (String × α)) {k k' : String}
    (v : α) (h : k' ≠ k) : mapGet (mapSet m k v) k' = mapGet m k' := by
  have hne : k ≠ k' := Ne.symm h
  induction m with
  | nil => simp [mapSet, mapGet, hne]
  | cons p rest ih =>
      obtain ⟨k0, v0⟩ := p
      by_cases hk : k0 = k
      · subst hk
        simp [mapSet, mapGet, hne]
      · by_cases hk' : k0 = k'
        · simp [mapSet, hk, mapGet, hk', h]
        · simp [mapSet, hk, mapGet, hk', ih]

theorem mapGet_mapDelete_self {α : Type} (m : List (String × α)) (k : String) :
    mapGet (mapDelete m k) k = none := by
  induction m with
  | nil => simp [mapDelete, mapGet]
  | cons p rest ih =>
      obtain ⟨k0, v0⟩ := p
      by_cases hk : k0 = k
      · simp [mapDelete, hk, ih]
      · simp [mapDelete, hk, mapGet, ih]

theorem mapGet_mapDelete_ne {α : Type} (m : List (String × α)) {k k' : String}
    (h : k' ≠ k) : mapGet (mapDelete m k) k' = mapGet m k' := by
  induction m with
  | nil => simp [mapDelete, mapGet]
  | cons p rest ih =>
      obtain ⟨k0, v0⟩ := p
      by_cases hk : k0 = k
      · subst hk
        simp [mapDelete, mapGet, Ne.symm h, ih]
      · by_cases hk' : k0 = k'
        · simp [mapDelete, hk, mapGet, hk', h]
        · simp [mapDelete, hk, mapGet, hk', ih]

theorem mem_of_mapGet_eq_some {α : Type} {m : List (String × α)} {k : String}
    {v : α} (h : mapGet m k = some v) : (k, v) ∈ m := by
  induction m with
  | nil => simp [mapGet] at h
  | cons p rest ih =>
      obtain ⟨k0, v0⟩ := p
      by_cases hk : k0 = k
      · subst hk
        rw [mapGet, if_pos rfl] at h
        cases h
        exact List.mem_cons_self _ _
      · rw [mapGet, if_neg hk] at h
        exact List.mem_cons_of_mem _ (ih h)

/-- The keys of an association list. -/
def keysOf {α : Type} (m : List (String × α)) : List String := m.map Prod.fst

theorem mapGet_eq_some_of_mem {α : Type} {m : List (String × α)} {k : String}
    {v : α} (hnd : (keysOf m).Nodup) (h : (k, v) ∈ m) : mapGet m k = some v := by
  induction m with
  | nil => simp at h
  | cons p rest ih =>
      obtain ⟨k0, v0⟩ := p
      rw [keysOf, List.map_cons, List.nodup_cons] at hnd
      rcases List.mem_cons.mp h with h1 | h1
      · have hk : k = k0 := congrArg Prod.fst h1
        have hv : v = v0 := congrArg Prod.snd h1
        simp [mapGet, hk, hv]
      · have hk0 : k0 ≠ k := by
          intro hkk
          subst hkk
          exact hnd.1 (List.mem_map.mpr ⟨(k0, v), h1, rfl⟩)
        rw [mapGet, if_neg hk0]
        exact ih hnd.2 h1

theorem setAdd_of_mem {s : List String} {x : String} (h : x ∈ s) :
    setAdd s x = s := by
  simp [setAdd, h]

theorem setAdd_of_not_mem {s : List String} {x : String} (h : x ∉ s) :
    setAdd s x = s ++ [x] := by
  simp [setAdd, h]

theorem setAdd_self_mem (s : List String) (x : String) : x ∈ setAdd s x := by
  by_cases h : x ∈ s
  · rw [setAdd_of_mem h]; exact h
  · rw [setAdd_of_not_mem h]; simp

theorem mem_setAdd {s : List String} {x y : String} :
    x ∈ setAdd s y ↔ x ∈ s ∨ x = y := by
  by_cases h : y ∈ s
  · rw [setAdd_of_mem h]
    constructor
    · exact Or.inl
    · rintro (hx | rfl)
      · exact hx
      · exact h
  · rw [setAdd_of_not_mem h]
    simp

theorem setAdd_setAdd_self (s : List String) (x : String) :
    setAdd (setAdd s x) x = setAdd s x :=
  setAdd_of_mem (setAdd_self_mem s x)

theorem setAdd_ne_nil (s : List String) (x : String) : setAdd s x ≠ [] := by
  intro h
  have := setAdd_self_mem s x
  rw [h] at this
  simp at this

theorem mem_setDelete {x y : String} :
    ∀ {s : List String}, x ∈ setDelete s y ↔ x ∈ s ∧ x ≠ y := by
  intro s
  induction s with
  | nil => simp [setDelete]
  | cons z rest ih =>
      by_cases hz : z = y
      · subst hz
        rw [setDelete, if_pos rfl, ih]
        constructor
        · rintro ⟨hx, hne⟩
          exact ⟨List.mem_cons_of_mem _ hx, hne⟩
        · rintro ⟨hx, hne⟩
          rcases List.mem_cons.mp hx with rfl | hx
          · exact absurd rfl hne
          · exact ⟨hx, hne⟩
      · rw [setDelete, if_neg hz]
        constructor
        · intro hx
          rcases List.mem_cons.mp hx with rfl | hx
          · exact ⟨List.mem_cons_self _ _, hz⟩
          · obtain ⟨h1, h2⟩ := ih.mp hx
            exact ⟨List.mem_cons_of_mem _ h1, h2⟩
        · rintro ⟨hx, hne⟩
          rcases List.mem_cons.mp hx with rfl | hx
          · exact List.mem_cons_self _ _
          · exact List.mem_cons_of_mem _ (ih.mpr ⟨hx, hne⟩)

theorem not_mem_setDelete_self (s : List String) (x : String) :
    x ∉ setDelete s x := fun h => (mem_setDelete.mp h).2 rfl

theorem setDelete_of_not_mem {s : List String} {x : String} (h : x ∉ s) :
    setDelete s x = s := by
  induction s with
  | nil => rfl
  | cons z rest ih =>
      have hz : z ≠ x := fun hh => h (hh ▸ List.mem_cons_self _ _)
      rw [setDelete, if_neg hz, ih (fun hh => h (List.mem_cons_of_mem _ hh))]

theorem setDelete_setDelete_self (s : List String) (x : String) :
    setDelete (setDelete s x) x = setDelete s x :=
  setDelete_of_not_mem (not_mem_setDelete_self s x)

theorem setDelete_append (a b : List String) (x : String) :
    setDelete (a ++ b) x = setDelete a x ++ setDelete b x := by
  induction a with
  | nil => simp [setDelete]
  | cons z rest ih =>
      by_cases hz : z = x
      · simp [setDelete, hz, ih]
      · simp [setDelete, hz, ih]

theorem setDelete_setAdd_comm {s : List String} {x c : String} (h : x ≠ c) :
    setDelete (setAdd s x) c = setAdd (setDelete s c) x := by
  by_cases hx : x ∈ s
  · rw [setAdd_of_mem hx, setAdd_of_mem (mem_setDelete.mpr ⟨hx, h⟩)]
  · have hx' : x ∉ setDelete s c := fun hh => hx (mem_setDelete.mp hh).1
    rw [setAdd_of_not_mem hx, setAdd_of_not_mem hx', setDelete_append]
    simp [setDelete, h]

theorem mem_keysOf_mapSet {α : Type} {k' k : String} {v : α} :
    ∀ {m : List (String × α)},
      k' ∈ keysOf (mapSet m k v) ↔ k' ∈ keysOf m ∨ k' = k := by
  intro m
  induction m with
  | nil => simp [mapSet, keysOf]
  | cons p rest ih =>
      obtain ⟨k0, v0⟩ := p
      by_cases hk : k0 = k
      · subst hk
        simp [mapSet, keysOf, List.mem_cons]
        tauto
      · simp only [keysOf, List.map] at ih
        simp [mapSet, hk, keysOf, List.mem_cons, ih]
        tauto

theorem nodup_keysOf_mapSet {α : Type} {m : List (String × α)} (k : String)
    (v : α) (h : (keysOf m).Nodup) : (keysOf (mapSet m k v)).Nodup := by
  induction m with
  | nil => simp [mapSet, keysOf]
  | cons p rest ih =>
      obtain ⟨k0, v0⟩ := p
      rw [keysOf, List.map_cons, List.nodup_cons] at h
      by_cases hk : k0 = k
      · have hms : mapSet ((k0, v0) :: rest) k v = (k, v) :: rest := by
          simp [mapSet, hk]
        rw [hms, keysOf, List.map_cons, List.nodup_cons]
        rw [hk] at h
        exact ⟨h.1, h.2⟩
      · have hms : mapSet ((k0, v0) :: rest) k v = (k0, v0) :: mapSet rest k v := by
          simp [mapSet, hk]
        rw [hms, keysOf, List.map_cons, List.nodup_cons]
        refine ⟨fun hmem => ?_, ih h.2⟩
        rcases mem_keysOf_mapSet.mp hmem with h1 | h1
        · exact h.1 h1
        · exact hk h1

theorem keysOf_mapDelete_sublist {α : Type} (m : List (String × α)) (k : String) :
    (keysOf (mapDelete m k)).Sublist (keysOf m) := by
  induction m with
  | nil => simp [mapDelete, keysOf]
  | cons p rest ih =>
      obtain ⟨k0, v0⟩ := p
      by_cases hk : k0 = k
      · rw [mapDelete, if_pos hk]
        exact ih.trans (List.sublist_cons_self _ _)
      · rw [mapDelete, if_neg hk]
        exact List.Sublist.cons₂ _ ih

theorem nodup_keysOf_mapDelete {α : Type} {m : List (String × α)} (k : String)
    (h : (keysOf m).Nodup) : (keysOf (mapDelete m k)).Nodup :=
  h.sublist (keysOf_mapDelete_sublist m k)

/-! ### Pointwise characterization of the pool operations -/

/-- The per-key effect of one pool-deletion step of `removePoolsGo`:
delete the id from the set, discarding the pool if it becomes empty. -/
def remTransform (o : Option (List String)) (sid : String) : Option (List String) :=
  match o with
  | none => none
  | some s =>
      let s' := setDelete s sid
      if s'.isEmpty then none else some s'

theorem remTransform_idem (o : Option (List String)) (sid : String) :
    remTransform (remTransform o sid) sid = remTransform o sid := by
  cases o with
  | none => rfl
  | some s =>
      simp only [remTransform]
      by_cases h : (setDelete s sid).isEmpty
      · simp [h, remTransform]
      · simp [h, remTransform, setDelete_setDelete_self]

theorem mem_of_remTransform {o : Option (List String)} {sid y : String}
    {s' : List String} (h : remTransform o sid = some s') (hy : y ∈ s') :
    ∃ s, o = some s ∧ y ∈ s ∧ y ≠ sid := by
  cases o with
  | none => simp [remTransform] at h
  | some s =>
      simp only [remTransform] at h
      by_cases he : (setDelete s sid).isEmpty
      · simp [he] at h
      · simp [he] at h
        subst h
        obtain ⟨h1, h2⟩ := mem_setDelete.mp hy
        exact ⟨s, rfl, h1, h2⟩

theorem not_mem_remTransform_self {o : Option (List String)} {sid : String}
    {s' : List String} (h : remTransform o sid = some s') : sid ∉ s' := by
  intro hmem
  obtain ⟨s, _, _, hne⟩ := mem_of_remTransform h hmem
  exact hne rfl

theorem mapGet_removeStep (ps : List (String × List String)) (sid key k : String) :
    mapGet
      (match mapGet ps key with
       | none => ps
       | some set =>
           let set' := setDelete set sid
           if set'.isEmpty then mapDelete ps key else mapSet ps key set') k
      = if k = key then remTransform (mapGet ps key) sid else mapGet ps k := by
  by_cases hk : k = key
  · subst hk
    cases hg : mapGet ps k with
    | none => simp [hg, remTransform]
    | some set =>
        by_cases he : (setDelete set sid).isEmpty
        · simp [hg, he, remTransform, mapGet_mapDelete_self]
        · simp [hg, he, remTransform, mapGet_mapSet_self]
  · cases hg : mapGet ps key with
    | none => simp [hg, hk]
    | some set =>
        by_cases he : (setDelete set sid).isEmpty
        · simp [hg, he, hk, mapGet_mapDelete_ne _ hk]
        · simp [hg, he, hk, mapGet_mapSet_ne _ _ hk]

theorem mapGet_removePoolsGo (sid : String) :
    ∀ (l : List String) (ps : List (String × List String)) (k : String),
      mapGet (removePoolsGo sid l ps) k =
        if k ∈ l.map jsToLower then remTransform (mapGet ps k) sid
        else mapGet ps k := by
  intro l
  induction l with
  | nil => intro ps k; simp [removePoolsGo]
  | cons i rest ih =>
      intro ps k
      rw [removePoolsGo]
      rw [ih]
      rw [mapGet_removeStep ps sid (jsToLower i) k]
      by_cases hrest : k ∈ rest.map jsToLower
      · by_cases hk : k = jsToLower i
        · subst hk
          simp [hrest, remTransform_idem]
        · simp [hrest, hk]
      · by_cases hk : k = jsToLower i
        · subst hk
          simp [hrest]
        · simp [hrest, hk]

theorem mapGet_removeInterestPools (ps : List (String × List String))
    (c : ClientInfo) (k : String) :
    mapGet (removeInterestPools ps c) k =
      if k ∈ c.interests.map jsToLower then
        remTransform (mapGet ps k) c.sessionId
      else mapGet ps k :=
  mapGet_removePoolsGo c.sessionId c.interests ps k

/-- The non-empty normalized interest keys used by `addPoolsGo`. -/
def addKeysOf : List String → List String
  | [] => []
  | i :: rest =>
      let k0 := jsToLower (jsTrim i)
      if k0 = "" then addKeysOf rest else k0 :: addKeysOf rest

theorem mapGet_addPoolsGo (sid : String) :
    ∀ (l : List String) (ps : List (String × List String)) (k : String),
      mapGet (addPoolsGo sid l ps) k =
        if k ∈ addKeysOf l then some (setAdd ((mapGet ps k).getD []) sid)
        else mapGet ps k := by
  intro l
  induction l with
  | nil => intro ps k; simp [addPoolsGo, addKeysOf]
  | cons i rest ih =>
      intro ps k
      rw [addPoolsGo]
      by_cases h0 : jsToLower (jsTrim i) = ""
      · rw [if_pos h0, ih]
        simp [addKeysOf, h0]
      · rw [if_neg h0, ih]
        by_cases hrest : k ∈ addKeysOf rest
        · by_cases hk : k = jsToLower (jsTrim i)
          · subst hk
            rw [if_pos hrest, mapGet_mapSet_self]
            simp [addKeysOf, h0, setAdd_setAdd_self]
          · rw [if_pos hrest, mapGet_mapSet_ne _ _ hk]
            simp [addKeysOf, h0, hrest]
        · by_cases hk : k = jsToLower (jsTrim i)
          · subst hk
            rw [if_neg hrest, mapGet_mapSet_self]
            simp [addKeysOf, h0]
          · rw [if_neg hrest, mapGet_mapSet_ne _ _ hk]
            simp [addKeysOf, h0, hrest, hk]

theorem mapGet_addInterestPools (ps : List (String × List String))
    (c : ClientInfo) (k : String) :
    mapGet (addInterestPools ps c) k =
      if k ∈ addKeysOf c.interests then
        some (setAdd ((mapGet ps k).getD []) c.sessionId)
      else mapGet ps k :=
  mapGet_addPoolsGo c.sessionId c.interests ps k

theorem nodup_keysOf_removePoolsGo (sid : String) :
    ∀ (l : List String) {ps : List (String × List String)},
      (keysOf ps).Nodup → (keysOf (removePoolsGo sid l ps)).Nodup := by
  intro l
  induction l with
  | nil => intro ps h; simpa [removePoolsGo] using h
  | cons i rest ih =>
      intro ps h
      rw [removePoolsGo]
      apply ih
      cases hg : mapGet ps (jsToLower i) with
      | none => simpa [hg] using h
      | some set =>
          by_cases he : (setDelete set sid).isEmpty
          · simpa [hg, he] using nodup_keysOf_mapDelete _ h
          · simpa [hg, he] using nodup_keysOf_mapSet _ _ h

/-! ### Candidate set and scan lemmas -/

theorem mem_candAddGo (self : String) :
    ∀ (set acc : List String) (x : String),
      x ∈ candAddGo self set acc ↔ x ∈ acc ∨ (x ∈ set ∧ x ≠ self) := by
  intro set
  induction set with
  | nil => intro acc x; simp [candAddGo]
  | cons sid rest ih =>
      intro acc x
      rw [candAddGo]
      by_cases hs : sid = self
      · rw [if_pos hs, ih]
        subst hs
        constructor
        · rintro (h | ⟨h1, h2⟩)
          · exact Or.inl h
          · exact Or.inr ⟨List.mem_cons_of_mem _ h1, h2⟩
        · rintro (h | ⟨h1, h2⟩)
          · exact Or.inl h
          · rcases List.mem_cons.mp h1 with rfl | h1
            · exact absurd rfl h2
            · exact Or.inr ⟨h1, h2⟩
      · rw [if_neg hs, ih]
        constructor
        · rintro (h | ⟨h1, h2⟩)
          · rcases mem_setAdd.mp h with h3 | rfl
            · exact Or.inl h3
            · exact Or.inr ⟨List.mem_cons_self _ _, hs⟩
          · exact Or.inr ⟨List.mem_cons_of_mem _ h1, h2⟩
        · rintro (h | ⟨h1, h2⟩)
          · exact Or.inl (mem_setAdd.mpr (Or.inl h))
          · rcases List.mem_cons.mp h1 with rfl | h1
            · exact Or.inl (mem_setAdd.mpr (Or.inr rfl))
            · exact Or.inr ⟨h1, h2⟩

theorem mem_candidateGo (pools : List (String × List String)) (self : String) :
    ∀ (l acc : List String) (x : String),
      x ∈ candidateGo pools self l acc ↔
        x ∈ acc ∨
          ∃ i ∈ l, ∃ s, mapGet pools (jsToLower i) = some s ∧ x ∈ s ∧ x ≠ self := by
  intro l
  induction l with
  | nil => intro acc x; simp [candidateGo]
  | cons i rest ih =>
      intro acc x
      rw [candidateGo]
      cases hg : mapGet pools (jsToLower i) with
      | none =>
          simp only [hg]
          rw [ih]
          constructor
          · rintro (h | ⟨i', hi', hrest⟩)
            · exact Or.inl h
            · exact Or.inr ⟨i', List.mem_cons_of_mem _ hi', hrest⟩
          · rintro (h | ⟨i', hi', s, hs, hx⟩)
            · exact Or.inl h
            · rcases List.mem_cons.mp hi' with rfl | hi'
              · rw [hg] at hs; cases hs
              · exact Or.inr ⟨i', hi', s, hs, hx⟩
      | some set =>
          simp only [hg]
          rw [ih, mem_candAddGo]
          constructor
          · rintro ((h | ⟨h1, h2⟩) | ⟨i', hi', hrest⟩)
            · exact Or.inl h
            · exact Or.inr ⟨i, List.mem_cons_self _ _, set, hg, h1, h2⟩
            · exact Or.inr ⟨i', List.mem_cons_of_mem _ hi', hrest⟩
          · rintro (h | ⟨i', hi', s, hs, hx, hne⟩)
            · exact Or.inl (Or.inl h)
            · rcases List.mem_cons.mp hi' with rfl | hi'
              · rw [hg] at hs
                cases hs
                exact Or.inl (Or.inr ⟨hx, hne⟩)
              · exact Or.inr ⟨i', hi', s, hs, hx, hne⟩

theorem mem_candidateSetOf {pools : List (String × List String)} {c : ClientInfo}
    {x : String} :
    x ∈ candidateSetOf pools c ↔
      ∃ i ∈ c.interests, ∃ s,
        mapGet pools (jsToLower i) = some s ∧ x ∈ s ∧ x ≠ c.sessionId := by
  rw [candidateSetOf, mem_candidateGo]
  simp

theorem not_self_mem_candidateSetOf (pools : List (String × List String))
    (c : ClientInfo) : c.sessionId ∉ candidateSetOf pools c := by
  intro h
  obtain ⟨_, _, _, _, _, hne⟩ := mem_candidateSetOf.mp h
  exact hne rfl

theorem scanInterest_some (reg : List (String × ClientInfo)) (c : ClientInfo)
    (cand : List String) :
    ∀ (w : List String) {sid : String} {other : ClientInfo},
      scanInterest reg c cand w = some (sid, other) →
        sid ≠ c.sessionId ∧ sid ∈ cand ∧ sid ∈ w ∧
          mapGet reg sid = some other ∧ other.mode = c.mode := by
  intro w
  induction w with
  | nil => intro sid other h; simp [scanInterest] at h
  | cons s0 rest ih =>
      intro sid other h
      rw [scanInterest] at h
      by_cases h1 : s0 = c.sessionId
      · rw [if_pos h1] at h
        obtain ⟨a, b, cc, d, e⟩ := ih h
        exact ⟨a, b, List.mem_cons_of_mem _ cc, d, e⟩
      · rw [if_neg h1] at h
        by_cases h2 : s0 ∈ cand
        · rw [if_pos h2] at h
          cases hg : mapGet reg s0 with
          | none =>
              simp only [hg] at h
              obtain ⟨a, b, cc, d, e⟩ := ih h
              exact ⟨a, b, List.mem_cons_of_mem _ cc, d, e⟩
          | some o =>
              simp only [hg] at h
              by_cases h3 : o.mode = c.mode
              · rw [if_pos h3] at h
                cases h
                exact ⟨h1, h2, List.mem_cons_self _ _, hg, h3⟩
              · rw [if_neg h3] at h
                obtain ⟨a, b, cc, d, e⟩ := ih h
                exact ⟨a, b, List.mem_cons_of_mem _ cc, d, e⟩
        · rw [if_neg h2] at h
          obtain ⟨a, b, cc, d, e⟩ := ih h
          exact ⟨a, b, List.mem_cons_of_mem _ cc, d, e⟩

theorem scanFallback_some (reg : List (String × ClientInfo)) (c : ClientInfo) :
    ∀ (w : List String) {sid : String} {other : ClientInfo},
      scanFallback reg c w = some (sid, other) →
        sid ≠ c.sessionId ∧ sid ∈ w ∧
          mapGet reg sid = some other ∧ other.mode = c.mode := by
  intro w
  induction w with
  | nil => intro sid other h; simp [scanFallback] at h
  | cons s0 rest ih =>
      intro sid other h
      rw [scanFallback] at h
      by_cases h1 : s0 = c.sessionId
      · rw [if_pos h1] at h
        obtain ⟨a, b, cc, d⟩ := ih h
        exact ⟨a, List.mem_cons_of_mem _ b, cc, d⟩
      · rw [if_neg h1] at h
        cases hg : mapGet reg s0 with
        | none =>
            simp only [hg] at h
            obtain ⟨a, b, cc, d⟩ := ih h
            exact ⟨a, List.mem_cons_of_mem _ b, cc, d⟩
        | some o =>
            simp only [hg] at h
            by_cases h3 : o.mode = c.mode
            · rw [if_pos h3] at h
              cases h
              exact ⟨h1, List.mem_cons_self _ _, hg, h3⟩
            · rw [if_neg h3] at h
              obtain ⟨a, b, cc, d⟩ := ih h
              exact ⟨a, List.mem_cons_of_mem _ b, cc, d⟩

theorem scanInterest_eq_find (reg : List (String × ClientInfo)) (c : ClientInfo)
    (cand : List String) (hns : c.sessionId ∉ cand) :
    ∀ (w : List String),
      (∀ sid ∈ w, optHolds (mapGet reg sid) (fun o => o.mode = c.mode)) →
      ∀ {b : String}, w.find? (fun sid => sid ∈ cand) = some b →
        ∃ other, mapGet reg b = some other ∧
          scanInterest reg c cand w = some (b, other) := by
  intro w
  induction w with
  | nil => intro _ b h; simp at h
  | cons s0 rest ih =>
      intro hreg b hfind
      by_cases h2 : s0 ∈ cand
      · rw [List.find?_cons_of_pos _ (by simpa using h2)] at hfind
        cases hfind
        have h1 : s0 ≠ c.sessionId := fun hh => hns (hh ▸ h2)
        obtain ⟨o, ho, hmode⟩ :=
          optHolds_elim (hreg s0 (List.mem_cons_self _ _))
        refine ⟨o, ho, ?_⟩
        rw [scanInterest, if_neg h1, if_pos h2]
        simp only [ho]
        rw [if_pos hmode]
      · rw [List.find?_cons_of_neg _ (by simpa using h2)] at hfind
        obtain ⟨o, ho, hscan⟩ :=
          ih (fun sid hs => hreg sid (List.mem_cons_of_mem _ hs)) hfind
        refine ⟨o, ho, ?_⟩
        by_cases h1 : s0 = c.sessionId
        · rw [scanInterest, if_pos h1]
          exact hscan
        · rw [scanInterest, if_neg h1, if_neg h2]
          exact hscan

theorem tryMatchPick_some {q : MatchmakingQueues} {c : ClientInfo}
    {reg : List (String × ClientInfo)} {sid : String} {other : ClientInfo}
    (h : tryMatchPick q c reg = some (sid, other)) :
    sid ≠ c.sessionId ∧ sid ∈ waitingOf q c.mode ∧
      mapGet reg sid = some other ∧ other.mode = c.mode := by
  rw [tryMatchPick] at h
  cases hscan : (if (candidateSetOf (poolsOf q c.mode) c).isEmpty then none
      else scanInterest reg c (candidateSetOf (poolsOf q c.mode) c)
        (waitingOf q c.mode)) with
  | none =>
      rw [hscan] at h
      obtain ⟨a, b, cc, d⟩ := scanFallback_some reg c _ h
      exact ⟨a, b, cc, d⟩
  | some hit =>
      rw [hscan] at h
      cases h
      by_cases he : (candidateSetOf (poolsOf q c.mode) c).isEmpty
      · rw [if_pos he] at hscan
        cases hscan
      · rw [if_neg he] at hscan
        obtain ⟨a, _, b, cc, d⟩ := scanInterest_some reg c _ _ hscan
        exact ⟨a, b, cc, d⟩

theorem tryMatch_some_elim {q : MatchmakingQueues} {c : ClientInfo}
    {reg : List (String × ClientInfo)} {aId bId : String}
    {q' : MatchmakingQueues}
    (h : tryMatch q c reg = some ((aId, bId), q')) :
    aId = c.sessionId ∧ bId ≠ c.sessionId ∧ bId ∈ waitingOf q c.mode ∧
      ∃ other, mapGet reg bId = some other ∧ other.mode = c.mode ∧
        q' = removeFromQueues (removeFromQueues q c) other := by
  rw [tryMatch] at h
  cases hp : tryMatchPick q c reg with
  | none => rw [hp] at h; cases h
  | some hit =>
      obtain ⟨sid, other⟩ := hit
      rw [hp] at h
      cases h
      obtain ⟨a, b, cc, d⟩ := tryMatchPick_some hp
      exact ⟨rfl, a, b, other, cc, d, rfl⟩

/-! ### Queue-level lemmas and well-formedness -/

theorem waitingOf_enqueueClient (q : MatchmakingQueues) (c : ClientInfo)
    (m : ChatMode) :
    waitingOf (enqueueClient q c) m =
      if m = c.mode then waitingOf q m ++ [c.sessionId] else waitingOf q m := by
  cases hc : c.mode <;> cases m <;> simp [enqueueClient, waitingOf, hc]

theorem poolsOf_enqueueClient (q : MatchmakingQueues) (c : ClientInfo)
    (m : ChatMode) :
    poolsOf (enqueueClient q c) m =
      if m = c.mode then addInterestPools (poolsOf q m) c else poolsOf q m := by
  cases hc : c.mode <;> cases m <;> simp [enqueueClient, poolsOf, hc]

theorem waitingOf_removeFromQueues (q : MatchmakingQueues) (c : ClientInfo)
    (m : ChatMode) :
    waitingOf (removeFromQueues q c) m =
      if m = c.mode then (waitingOf q m).erase c.sessionId else waitingOf q m := by
  cases hc : c.mode <;> cases m <;> simp [removeFromQueues, waitingOf, hc]

theorem poolsOf_removeFromQueues (q : MatchmakingQueues) (c : ClientInfo)
    (m : ChatMode) :
    poolsOf (removeFromQueues q c) m =
      if m = c.mode then removeInterestPools (poolsOf q m) c else poolsOf q m := by
  cases hc : c.mode <;> cases m <;> simp [removeFromQueues, poolsOf, hc]

/-- No residual membership: the session id is in neither mode FIFO and in
no interest pool of either mode. -/
def NotQueuedAnywhere (q : MatchmakingQueues) (sid : String) : Prop :=
  sid ∉ q.waiting_text ∧ sid ∉ q.waiting_video ∧
    (∀ p ∈ q.interestPoolsText, sid ∉ p.2) ∧
    (∀ p ∈ q.interestPoolsVideo, sid ∉ p.2)

theorem notQueuedAnywhere_iff {q : MatchmakingQueues} {sid : String} :
    NotQueuedAnywhere q sid ↔
      ∀ m, sid ∉ waitingOf q m ∧ ∀ p ∈ poolsOf q m, sid ∉ p.2 := by
  constructor
  · rintro ⟨h1, h2, h3, h4⟩ m
    cases m
    · exact ⟨h1, h3⟩
    · exact ⟨h2, h4⟩
  · intro h
    exact ⟨(h .text).1, (h .video).1, (h .text).2, (h .video).2⟩

/-- The state well-formedness the matchmaking engine maintains on every
reachable state: FIFO members are registered with the matching mode,
FIFOs hold no duplicates, pool members are registered with the matching
mode and declare the pool's interest key, and pool maps have no
duplicate keys. -/
structure QueuesWF (q : MatchmakingQueues) (reg : List (String × ClientInfo)) :
    Prop where
  wt : ∀ sid ∈ q.waiting_text,
        optHolds (mapGet reg sid) (fun o => o.mode = ChatMode.text)
  wv : ∀ sid ∈ q.waiting_video,
        optHolds (mapGet reg sid) (fun o => o.mode = ChatMode.video)
  ndt : q.waiting_text.Nodup
  ndv : q.waiting_video.Nodup
  pt : ∀ p ∈ q.interestPoolsText, ∀ sid ∈ p.2,
        optHolds (mapGet reg sid)
          (fun o => o.mode = ChatMode.text ∧ p.1 ∈ o.interests.map jsToLower)
  pv : ∀ p ∈ q.interestPoolsVideo, ∀ sid ∈ p.2,
        optHolds (mapGet reg sid)
          (fun o => o.mode = ChatMode.video ∧ p.1 ∈ o.interests.map jsToLower)
  kt : (keysOf q.interestPoolsText).Nodup
  kv : (keysOf q.interestPoolsVideo).Nodup

theorem QueuesWF.wm {q : MatchmakingQueues} {reg : List (String × ClientInfo)}
    (h : QueuesWF q reg) (m : ChatMode) :
    ∀ sid ∈ waitingOf q m, optHolds (mapGet reg sid) (fun o => o.mode = m) := by
  cases m
  · exact h.wt
  · exact h.wv

theorem QueuesWF.ndm {q : MatchmakingQueues} {reg : List (String × ClientInfo)}
    (h : QueuesWF q reg) (m : ChatMode) : (waitingOf q m).Nodup := by
  cases m
  · exact h.ndt
  · exact h.ndv

theorem QueuesWF.pm {q : MatchmakingQueues} {reg : List (String × ClientInfo)}
    (h : QueuesWF q reg) (m : ChatMode) :
    ∀ p ∈ poolsOf q m, ∀ sid ∈ p.2,
      optHolds (mapGet reg sid)
        (fun o => o.mode = m ∧ p.1 ∈ o.interests.map jsToLower) := by
  cases m
  · exact h.pt
  · exact h.pv

theorem QueuesWF.km {q : MatchmakingQueues} {reg : List (String × ClientInfo)}
    (h : QueuesWF q reg) (m : ChatMode) : (keysOf (poolsOf q m)).Nodup := by
  cases m
  · exact h.kt
  · exact h.kv

theorem nodup_keysOf_removeInterestPools {ps : List (String × List String)}
    (c : ClientInfo) (h : (keysOf ps).Nodup) :
    (keysOf (removeInterestPools ps c)).Nodup :=
  nodup_keysOf_removePoolsGo c.sessionId c.interests h

/-- A pool entry surviving `removeInterestPools` descends, with key
preserved and membership shrinking, from an original entry. -/
theorem mem_pool_entry_remove {ps : List (String × List String)}
    {y : ClientInfo} (hk : (keysOf ps).Nodup) {p' : String × List String}
    (hp : p' ∈ removeInterestPools ps y) {sid : String} (hs : sid ∈ p'.2) :
    ∃ s, (p'.1, s) ∈ ps ∧ sid ∈ s := by
  have hk' : (keysOf (removeInterestPools ps y)).Nodup :=
    nodup_keysOf_removeInterestPools y hk
  have hget : mapGet (removeInterestPools ps y) p'.1 = some p'.2 :=
    mapGet_eq_some_of_mem hk' hp
  rw [mapGet_removeInterestPools] at hget
  by_cases hin : p'.1 ∈ y.interests.map jsToLower
  · rw [if_pos hin] at hget
    obtain ⟨s, hs1, hs2, _⟩ := mem_of_remTransform hget hs
    exact ⟨s, mem_of_mapGet_eq_some hs1, hs2⟩
  · rw [if_neg hin] at hget
    exact ⟨p'.2, mem_of_mapGet_eq_some hget, hs⟩

/-- Well-formedness is preserved by `removeFromQueues`, for any client. -/
theorem queuesWF_removeFromQueues {q : MatchmakingQueues}
    {reg : List (String × ClientInfo)} (h : QueuesWF q reg) (y : ClientInfo) :
    QueuesWF (removeFromQueues q y) reg := by
  have hw : ∀ m, ∀ sid ∈ waitingOf (removeFromQueues q y) m,
      optHolds (mapGet reg sid) (fun o => o.mode = m) := by
    intro m sid hmem
    rw [waitingOf_removeFromQueues] at hmem
    by_cases hm : m = y.mode
    · rw [if_pos hm] at hmem
      exact h.wm m sid (List.mem_of_mem_erase hmem)
    · rw [if_neg hm] at hmem
      exact h.wm m sid hmem
  have hnd : ∀ m, (waitingOf (removeFromQueues q y) m).Nodup := by
    intro m
    rw [waitingOf_removeFromQueues]
    by_cases hm : m = y.mode
    · rw [if_pos hm]
      exact (h.ndm m).erase _
    · rw [if_neg hm]
      exact h.ndm m
  have hp : ∀ m, ∀ p ∈ poolsOf (removeFromQueues q y) m, ∀ sid ∈ p.2,
      optHolds (mapGet reg sid)
        (fun o => o.mode = m ∧ p.1 ∈ o.interests.map jsToLower) := by
    intro m p' hp' sid hsid
    rw [poolsOf_removeFromQueues] at hp'
    by_cases hm : m = y.mode
    · rw [if_pos hm] at hp'
      obtain ⟨s, hsentry, hsmem⟩ := mem_pool_entry_remove (h.km m) hp' hsid
      exact h.pm m _ hsentry sid hsmem
    · rw [if_neg hm] at hp'
      exact h.pm m _ hp' sid hsid
  have hk : ∀ m, (keysOf (poolsOf (removeFromQueues q y) m)).Nodup := by
    intro m
    rw [poolsOf_removeFromQueues]
    by_cases hm : m = y.mode
    · rw [if_pos hm]
      exact nodup_keysOf_removeInterestPools y (h.km m)
    · rw [if_neg hm]
      exact h.km m
  exact ⟨hw .text, hw .video, hnd .text, hnd .video,
         hp .text, hp .video, hk .text, hk .video⟩

/-- Removing a session that is its own registry record leaves no trace of
it in any queue or pool. -/
theorem removeFromQueues_complete {q : MatchmakingQueues}
    {reg : List (String × ClientInfo)} {x : ClientInfo}
    (h : QueuesWF q reg) (hx : mapGet reg x.sessionId = some x) :
    NotQueuedAnywhere (removeFromQueues q x) x.sessionId := by
  rw [notQueuedAnywhere_iff]
  intro m
  constructor
  · rw [waitingOf_removeFromQueues]
    by_cases hm : m = x.mode
    · rw [if_pos hm]
      intro hmem
      exact (((h.ndm m).mem_erase_iff).mp hmem).1 rfl
    · rw [if_neg hm]
      intro hmem
      obtain ⟨o, ho, hmode⟩ := optHolds_elim (h.wm m _ hmem)
      rw [hx] at ho
      cases ho
      exact hm hmode.symm
  · intro p' hp' hsmem
    rw [poolsOf_removeFromQueues] at hp'
    by_cases hm : m = x.mode
    · rw [if_pos hm] at hp'
      have hget : mapGet (removeInterestPools (poolsOf q m) x) p'.1 = some p'.2 :=
        mapGet_eq_some_of_mem (nodup_keysOf_removeInterestPools x (h.km m)) hp'
      rw [mapGet_removeInterestPools] at hget
      by_cases hin : p'.1 ∈ x.interests.map jsToLower
      · rw [if_pos hin] at hget
        exact not_mem_remTransform_self hget hsmem
      · rw [if_neg hin] at hget
        obtain ⟨o, ho, _, hkey⟩ :=
          optHolds_elim (h.pm m _ (mem_of_mapGet_eq_some hget) _ hsmem)
        rw [hx] at ho
        cases ho
        exact hin hkey
    · rw [if_neg hm] at hp'
      obtain ⟨o, ho, hmode, _⟩ := optHolds_elim (h.pm m _ hp' _ hsmem)
      rw [hx] at ho
      cases ho
      exact hm hmode.symm

/-- `removeFromQueues` never re-introduces a session id. -/
theorem notQueuedAnywhere_removeFromQueues {q : MatchmakingQueues} {sid : String}
    (h : NotQueuedAnywhere q sid)
    (hk : ∀ m, (keysOf (poolsOf q m)).Nodup) (y : ClientInfo) :
    NotQueuedAnywhere (removeFromQueues q y) sid := by
  rw [notQueuedAnywhere_iff] at h ⊢
  intro m
  obtain ⟨h1, h2⟩ := h m
  constructor
  · rw [waitingOf_removeFromQueues]
    by_cases hm : m = y.mode
    · rw [if_pos hm]
      intro hmem
      exact h1 (List.mem_of_mem_erase hmem)
    · rw [if_neg hm]
      exact h1
  · intro p' hp' hsmem
    rw [poolsOf_removeFromQueues] at hp'
    by_cases hm : m = y.mode
    · rw [if_pos hm] at hp'
      obtain ⟨s, hsentry, hsmem'⟩ := mem_pool_entry_remove (hk m) hp' hsmem
      exact h2 _ hsentry hsmem'
    · rw [if_neg hm] at hp'
      exact h2 _ hp' hsmem

/-! ### Concrete instances used by witnesses and counterexamples -/


def egA : ClientInfo :=
  { sessionId := "a", mode := .video, interests := ["music"],
    pairedWith := none, ws := 1, ip := "t" }
def egB : ClientInfo :=
  { sessionId := "b", mode := .video, interests := ["music"],
    pairedWith := none, ws := 2, ip := "t" }
def egC : ClientInfo :=
  { sessionId := "c", mode := .video, interests := [],
    pairedWith := none, ws := 3, ip := "t" }

def egReg : List (String × ClientInfo) := [("a", egA), ("c", egC), ("b", egB)]

def egQ : MatchmakingQueues :=
  enqueueClient (enqueueClient (enqueueClient createQueues egA) egC) egB


def cId : String := "cccccccc-cccc-4ccc-8ccc-cccccccccccc"
def dId : String := "dddddddd-dddd-4ddd-8ddd-dddddddddddd"
def eId : String := "eeeeeeee-eeee-4eee-8eee-eeeeeeeeeeee"
def aId : String := "aaaaaaaa-aaaa-4aaa-8aaa-aaaaaaaaaaaa"
def bId : String := "bbbbbbbb-bbbb-4bbb-8bbb-bbbbbbbbbbbb"


-- C1 trace: stale next-timer re-pairs an already-paired session.
def c1Ops : List Event :=
  [ .join 1 "i" cId .text ["x"], .joinTimer, .next cId,
    .join 2 "i" dId .text [], .join 3 "i" eId .text ["x"], .nextTimer ]
def c1Final : ServerState := run initialState c1Ops


-- C9 trace: stale next-timer strands an innocent queued session.
def c9Ops : List Event :=
  [ .join 1 "i" cId .text ["x"], .joinTimer, .next cId, .leave cId,
    .join 2 "i" dId .text ["x"] ]
def c9St5 : ServerState := run initialState c9Ops


-- C4/C5 base trace: a and b paired.
def pairOps : List Event := [ .join 1 "i" aId .text [], .join 2 "i" bId .text [] ]
def pairSt : ServerState := run initialState pairOps


-- The registry records of `pairSt`: a and b, mutually paired.
def pairA : ClientInfo :=
  { sessionId := aId, mode := .text, interests := [],
    pairedWith := some bId, ws := 1, ip := "i" }
def pairB : ClientInfo :=
  { sessionId := bId, mode := .text, interests := [],
    pairedWith := some aId, ws := 2, ip := "i" }

-- C7 trace: a joins twice with the same session id but different mode.
def c7St1 : ServerState := run initialState [Event.join 1 "i" aId .text ["x"]]
def c7St2 : ServerState := run c7St1 [Event.join 2 "j" aId .video []]

-- The registry record of `c7St1` before the overwriting second join.
def c7Old : ClientInfo :=
  { sessionId := aId, mode := .text, interests := ["x"],
    pairedWith := none, ws := 1, ip := "i" }

-- The queue state left by `tryMatch egQ egB egReg`.
def egQrest : MatchmakingQueues :=
  { waiting_text := [], waiting_video := ["c"],
    interestPoolsText := [], interestPoolsVideo := [] }

/-! ### Claim theorems -/

/-- Claim C1 (code bug): the pairing-symmetry invariant fails on the code.
A `next` grace-timer with no staleness guard fires after its session has
been matched to someone else and re-pairs it; the previous partner still
points at it.  Executing the concrete trace `c1Ops` (c joins with an
interest; its join timer fires with no partner; c sends `next`, arming a
deferred attempt; d joins and is paired with c; e joins with the shared
interest; c's stale `next` timer fires) leaves live sessions with
`d.pairedWith = c` while `c.pairedWith = e` — a one-sided link. -/
theorem c1_stale_next_timer_breaks_pairing_symmetry :
    pairingSymmetricB c1Final.sessionIdToClient = false ∧
      (mapGet c1Final.sessionIdToClient dId).map (fun s => s.pairedWith)
        = some (some cId) ∧
      (mapGet c1Final.sessionIdToClient cId).map (fun s => s.pairedWith)
        = some (some eId) :=
  ⟨by decide, by decide, by decide⟩

/-- Claim C9 (code bug): the deferred `tryMatch` scheduled by `next` acts
on a stale session.  In the trace `c9Ops`, c leaves before its `next`
timer fires; d then joins with the shared interest and waits.  When the
stale timer fires it removes d from the FIFO and from its interest pool,
emits nothing, and leaves d registered, unpaired and unreachable by any
future match — the claimed no-mutation guarantee fails for the `next`
path (the `join` path has the staleness guard). -/
theorem c9_stale_next_timer_mutates_queues :
    c9St5.queues.waiting_text = [dId] ∧
      (step c9St5 .nextTimer).1.queues.waiting_text = [] ∧
      (step c9St5 .nextTimer).2 = [] ∧
      mapGet (step c9St5 .nextTimer).1.queues.interestPoolsText "x" = none ∧
      (mapGet (step c9St5 .nextTimer).1.sessionIdToClient dId).map
        (fun s => s.pairedWith) = some none :=
  ⟨by decide, by decide, by decide, by decide, by decide⟩

/-- Claim C6 counterexample: `enqueueClient` has no idempotent guard; a
second enqueue of the same session duplicates its id in the FIFO. -/
theorem c6_enqueue_not_idempotent_counterexample :
    (enqueueClient (enqueueClient createQueues egA) egA).waiting_video
        = ["a", "a"] ∧
      ¬ (enqueueClient (enqueueClient createQueues egA) egA).waiting_video.Nodup :=
  ⟨by decide, by decide⟩

/-- Claim C6 (amended): `enqueueClient` appends the session id to the
mode FIFO unconditionally — each call increases the id's occurrence
count by one, so enqueueing an already-queued session produces a
duplicate. -/
theorem c6_enqueue_appends_unconditionally (q : MatchmakingQueues)
    (c : ClientInfo) :
    (waitingOf (enqueueClient q c) c.mode).count c.sessionId
      = (waitingOf q c.mode).count c.sessionId + 1 := by
  rw [waitingOf_enqueueClient, if_pos rfl]
  simp

/-- Claim C8 counterexample: `sanitizeInterests` performs no
de-duplication; a duplicated token is stored twice. -/
theorem c8_sanitize_keeps_duplicates_counterexample :
    sanitizeInterests ["music", "music"] = ["music", "music"] ∧
      ¬ (sanitizeInterests ["music", "music"]).Nodup :=
  ⟨by decide, by decide⟩

/-- Claim C8 (amended): the stored interests are the trimmed, lower-cased
input entries with empty tokens dropped, truncated to the first 10, in
input order; the list never exceeds 10 entries (but duplicates are not
removed). -/
theorem c8_sanitize_normalizes_filters_truncates (l : List String) :
    (sanitizeInterests l).length ≤ 10 ∧
      (sanitizeInterests l).Sublist (l.map (fun x => jsToLower (jsTrim x))) ∧
      ∀ x ∈ sanitizeInterests l, x ≠ "" ∧ ∃ y ∈ l, x = jsToLower (jsTrim y) := by
  refine ⟨?_, ?_, ?_⟩
  · exact List.length_take_le 10 _
  · exact (List.take_sublist _ _).trans (List.filter_sublist _)
  · intro x hx
    have hx1 : x ∈ (l.map fun x => jsToLower (jsTrim x)).filter
        (fun s => s ≠ "") := List.mem_of_mem_take hx
    obtain ⟨hx2, hx3⟩ := List.mem_filter.mp hx1
    obtain ⟨y, hy, hxy⟩ := List.mem_map.mp hx2
    refine ⟨by simpa using hx3, y, hy, hxy.symm⟩

/-- Witness for C8's theorem at a concrete input. -/
theorem c8_sanitize_witness :
    "rock" ≠ "" ∧ ∃ y ∈ ["  Rock ", "  Rock "], "rock" = jsToLower (jsTrim y) :=
  (c8_sanitize_normalizes_filters_truncates ["  Rock ", "  Rock "]).2.2 "rock"
    (by decide)

/-- Claim C10: whenever `tryMatch` returns a pair for requester `c`, the
partner id is distinct from `c.sessionId`, is present in the registry,
and refers to a session of `c`'s mode — `tryMatch` never pairs a session
with itself, with an unregistered FIFO id, or across modes. -/
theorem c10_tryMatch_partner_distinct_registered_same_mode
    {q : MatchmakingQueues} {c : ClientInfo} {reg : List (String × ClientInfo)}
    {aId' bId' : String} {q' : MatchmakingQueues}
    (h : tryMatch q c reg = some ((aId', bId'), q')) :
    aId' = c.sessionId ∧ bId' ≠ c.sessionId ∧
      ∃ other, mapGet reg bId' = some other ∧ other.mode = c.mode := by
  obtain ⟨h1, h2, _, other, h4, h5, _⟩ := tryMatch_some_elim h
  exact ⟨h1, h2, other, h4, h5⟩

theorem find?_isSome_of_pred {p : String → Bool} :
    ∀ {l : List String} {x : String}, x ∈ l → p x = true →
      ∃ b, l.find? p = some b := by
  intro l
  induction l with
  | nil => intro x hx; simp at hx
  | cons h0 rest ih =>
      intro x hx hp
      by_cases hph : p h0 = true
      · exact ⟨h0, List.find?_cons_of_pos _ hph⟩
      · rcases List.mem_cons.mp hx with rfl | hx'
        · exact absurd hp hph
        · obtain ⟨b, hb⟩ := ih hx' hp
          exact ⟨b, by rw [List.find?_cons_of_neg _ hph]; exact hb⟩

/-- Claim C2: for a session whose interest candidate set is non-empty,
`tryMatch` succeeds and returns exactly the candidate that appears
earliest in the same-mode FIFO (so an interest-sharing partner beats any
interest-less session regardless of FIFO position).  Hypotheses are the
reachable-state facts that every FIFO member is registered with the
FIFO's mode and every pool member is queued. -/
theorem c2_interest_match_prefers_earliest_fifo_candidate
    {q : MatchmakingQueues} {c : ClientInfo} {reg : List (String × ClientInfo)}
    (hreg : ∀ sid ∈ waitingOf q c.mode,
      optHolds (mapGet reg sid) (fun o => o.mode = c.mode))
    (hpool : ∀ p ∈ poolsOf q c.mode, ∀ sid ∈ p.2, sid ∈ waitingOf q c.mode)
    (hcand : candidateSetOf (poolsOf q c.mode) c ≠ []) :
    ∃ b q', (waitingOf q c.mode).find?
        (fun sid => sid ∈ candidateSetOf (poolsOf q c.mode) c) = some b ∧
      tryMatch q c reg = some ((c.sessionId, b), q') := by
  have hns : c.sessionId ∉ candidateSetOf (poolsOf q c.mode) c :=
    not_self_mem_candidateSetOf _ _
  obtain ⟨x, hx⟩ := List.exists_mem_of_ne_nil _ hcand
  obtain ⟨i, hi, s, hs, hxs, hxne⟩ := mem_candidateSetOf.mp hx
  have hxw : x ∈ waitingOf q c.mode := hpool _ (mem_of_mapGet_eq_some hs) x hxs
  obtain ⟨b, hb⟩ := find?_isSome_of_pred
    (p := fun sid => decide (sid ∈ candidateSetOf (poolsOf q c.mode) c))
    hxw (by simpa using hx)
  obtain ⟨other, hbo, hscan⟩ := scanInterest_eq_find reg c _ hns _ hreg hb
  refine ⟨b, removeFromQueues (removeFromQueues q c) other, hb, ?_⟩
  have hemp : ¬ ((candidateSetOf (poolsOf q c.mode) c).isEmpty = true) := by
    simpa [List.isEmpty_iff] using hcand
  simp only [tryMatch, tryMatchPick]
  rw [if_neg hemp]
  simp only [hscan]

/-- Witness for C2's theorem on Scenario 2: A(video, music), then
C(video, no interests), then B(video, music); matching B returns the
pair (B, A), preferring A over the earlier-queued interest-less C. -/
theorem c2_interest_match_witness :
    (∃ b q', (waitingOf egQ egB.mode).find?
        (fun sid => sid ∈ candidateSetOf (poolsOf egQ egB.mode) egB) = some b ∧
      tryMatch egQ egB egReg = some ((egB.sessionId, b), q')) ∧
      (tryMatch egQ egB egReg).map (fun r => r.1) = some ("b", "a") :=
  ⟨c2_interest_match_prefers_earliest_fifo_candidate (by decide) (by decide)
      (by decide),
   by decide⟩

/-- Claim C3: whenever `tryMatch` returns a pair, both matched sessions
have been removed from both mode FIFOs and from every interest pool of
the returned queue state.  Hypotheses are the reachable-state
well-formedness facts (`QueuesWF`), registry key consistency, and that
the requester is its own registry record. -/
theorem c3_successful_match_removes_both_from_all_queues
    {q : MatchmakingQueues} {c : ClientInfo} {reg : List (String × ClientInfo)}
    {aId' bId' : String} {q' : MatchmakingQueues}
    (hwf : QueuesWF q reg)
    (hkeys : ∀ p ∈ reg, p.2.sessionId = p.1)
    (hself : mapGet reg c.sessionId = some c)
    (h : tryMatch q c reg = some ((aId', bId'), q')) :
    NotQueuedAnywhere q' aId' ∧ NotQueuedAnywhere q' bId' := by
  obtain ⟨haId, hbne, hbw, other, hbreg, hbmode, hq'⟩ := tryMatch_some_elim h
  have hoid : other.sessionId = bId' := hkeys _ (mem_of_mapGet_eq_some hbreg)
  have h1 : NotQueuedAnywhere (removeFromQueues q c) c.sessionId :=
    removeFromQueues_complete hwf hself
  have hwf1 : QueuesWF (removeFromQueues q c) reg := queuesWF_removeFromQueues hwf c
  constructor
  · rw [hq', haId]
    exact notQueuedAnywhere_removeFromQueues h1 (fun m => hwf1.km m) other
  · rw [hq', ← hoid]
    exact removeFromQueues_complete hwf1 (by rw [hoid]; exact hbreg)

/-- Witness for C3's theorem at a concrete input: after B is matched to A
neither remains anywhere in the queue state. -/
theorem c3_post_match_witness :
    NotQueuedAnywhere egQrest "b" ∧ NotQueuedAnywhere egQrest "a" :=
  c3_successful_match_removes_both_from_all_queues
    ⟨by decide, by decide, by decide, by decide, by decide, by decide,
     by decide, by decide⟩
    (by decide) (by decide)
    (show tryMatch egQ egB egReg = some (("b", "a"), egQrest) by decide)

/-- Claim C4 counterexample: after a and b are paired (trace `pairOps`)
and a sends `report`, a's registry record still exists — the lookup of
the reporter's session id does find a session, so `report` is not
equivalent to `leave` for the reporter. -/
theorem c4_report_keeps_reporter_registered_counterexample :
    (mapGet (step pairSt (.report aId "bad")).1.sessionIdToClient aId).isSome
        = true ∧
      (mapGet pairSt.sessionIdToClient aId).map (fun s => s.pairedWith)
        = some (some bId) :=
  ⟨by decide, by decide⟩

/-- Claim C4 (amended): `report` by a paired, registered reporter clears
both sides' `pairedWith` and notifies the peer, and appends the report —
but the reporter's registry record is NOT deleted (a subsequent lookup
still finds it, now unpaired) and no queue or pool is touched. -/
theorem c4_report_clears_pairing_but_keeps_reporter
    {st : ServerState} {rid reason p : String} {c peer : ClientInfo}
    (hc : mapGet st.sessionIdToClient rid = some c)
    (hp : c.pairedWith = some p)
    (hpeer : mapGet st.sessionIdToClient p = some peer)
    (hne : p ≠ rid) :
    mapGet (handleReport st rid reason).1.sessionIdToClient rid
        = some { c with pairedWith := none } ∧
      mapGet (handleReport st rid reason).1.sessionIdToClient p
        = some { peer with pairedWith := none } ∧
      (handleReport st rid reason).1.queues = st.queues ∧
      (handleReport st rid reason).1.reportsQueue
        = st.reportsQueue ++ [(rid, reason)] ∧
      (handleReport st rid reason).2 = [.debug peer.ws "peer_reported"] := by
  simp only [handleReport, hc, hp, hpeer]
  refine ⟨?_, ?_, by trivial, by trivial, by trivial⟩
  · exact mapGet_mapSet_self _ _ _
  · rw [mapGet_mapSet_ne _ _ hne]
    exact mapGet_mapSet_self _ _ _

/-- Witness for C4's amended theorem at the concrete paired state. -/
theorem c4_report_witness :
    mapGet (handleReport pairSt aId "bad").1.sessionIdToClient aId
        = some { pairA with pairedWith := none } ∧
      mapGet (handleReport pairSt aId "bad").1.sessionIdToClient bId
        = some { pairB with pairedWith := none } ∧
      (handleReport pairSt aId "bad").1.queues = pairSt.queues ∧
      (handleReport pairSt aId "bad").1.reportsQueue
        = pairSt.reportsQueue ++ [(aId, "bad")] ∧
      (handleReport pairSt aId "bad").2 = [.debug pairB.ws "peer_reported"] :=
  @c4_report_clears_pairing_but_keeps_reporter pairSt aId "bad" bId pairA pairB
    (by decide) (by decide) (by decide) (by decide)

/-- Claim C7 counterexample: `join` with a session id that is already
registered does not fail — in the trace, a's text-mode record (with
interest x) is silently replaced by the video-mode record of the second
join, so the existing record is overwritten rather than preserved. -/
theorem c7_duplicate_join_overwrites_counterexample :
    mapGet c7St1.sessionIdToClient aId = some c7Old ∧
      (mapGet c7St2.sessionIdToClient aId).map (fun s => s.mode)
        = some ChatMode.video ∧
      (mapGet c7St2.sessionIdToClient aId).map (fun s => s.interests)
        = some [] :=
  ⟨by decide, by decide, by decide⟩

/-- Claim C7 (amended): a `join` whose (valid) session id is already in
the registry silently replaces the existing record: afterwards the
registry holds a record built entirely from the new join message (only
`pairedWith` may have been set by an immediate match). -/
theorem c7_join_replaces_existing_record
    {st : ServerState} {w : Nat} {ip sid : String} {mode : ChatMode}
    {raw : List String} {old : ClientInfo}
    (hvalid : isValidUuidV4 sid = true)
    (hold : mapGet st.sessionIdToClient sid = some old) :
    ∃ po, mapGet (handleJoin st w ip sid mode raw).1.sessionIdToClient sid
      = some { sessionId := sid, mode := mode,
               interests := sanitizeInterests raw, pairedWith := po,
               ws := w, ip := ip } := by
  simp only [handleJoin, hvalid, not_true, if_false, Bool.true_eq_false]
  by_cases hlen : (sanitizeInterests raw).length > 0
  · rw [if_pos hlen]
    exact ⟨none, mapGet_mapSet_self _ _ _⟩
  · rw [if_neg hlen]
    rw [joinAttempt]
    have hinfo : mapGet (mapSet st.sessionIdToClient sid
        { sessionId := sid, mode := mode, interests := sanitizeInterests raw,
          pairedWith := none, ws := w, ip := ip }) sid
        = some { sessionId := sid, mode := mode,
                 interests := sanitizeInterests raw, pairedWith := none,
                 ws := w, ip := ip } := mapGet_mapSet_self _ _ _
    simp only [hinfo]
    cases htm : tryMatch
        (enqueueClient st.queues
          { sessionId := sid, mode := mode, interests := sanitizeInterests raw,
            pairedWith := none, ws := w, ip := ip })
        { sessionId := sid, mode := mode, interests := sanitizeInterests raw,
          pairedWith := none, ws := w, ip := ip }
        (mapSet st.sessionIdToClient sid
          { sessionId := sid, mode := mode, interests := sanitizeInterests raw,
            pairedWith := none, ws := w, ip := ip }) with
    | none =>
        simp only [completeMatch]
        exact ⟨none, hinfo⟩
    | some pr =>
        obtain ⟨⟨aId', bId'⟩, q'⟩ := pr
        obtain ⟨ha, hbne, _, other, hbreg, _, _⟩ := tryMatch_some_elim htm
        have ha' : aId' = sid := ha
        subst ha'
        simp only [completeMatch, hinfo]
        cases hb : mapGet (mapSet st.sessionIdToClient aId'
            { sessionId := aId', mode := mode,
              interests := sanitizeInterests raw, pairedWith := none,
              ws := w, ip := ip }) bId' with
        | none =>
            rw [hbreg] at hb
            cases hb
        | some b =>
            simp only []
            refine ⟨some b.sessionId, ?_⟩
            rw [mapGet_mapSet_ne _ _ (fun hh => hbne hh.symm)]
            exact mapGet_mapSet_self _ _ _

/-- Witness for C7's amended theorem at the concrete duplicate join. -/
theorem c7_join_overwrite_witness :
    ∃ po, mapGet (handleJoin c7St1 2 "j" aId ChatMode.video []).1.sessionIdToClient
        aId
      = some { sessionId := aId, mode := ChatMode.video,
               interests := sanitizeInterests [], pairedWith := po,
               ws := 2, ip := "j" } :=
  @c7_join_replaces_existing_record c7St1 2 "j" aId ChatMode.video [] c7Old
    (by decide) (by decide)

theorem isEmpty_setAdd (s : List String) (x : String) :
    (setAdd s x).isEmpty = false := by
  cases h : setAdd s x with
  | nil => exact absurd h (setAdd_ne_nil s x)
  | cons a l => rfl

theorem remTransform_setAdd_comm {o : Option (List String)} {x c : String}
    (h : x ≠ c) :
    remTransform (some (setAdd (o.getD []) x)) c
      = some (setAdd ((remTransform o c).getD []) x) := by
  have hL : remTransform (some (setAdd (o.getD []) x)) c
      = some (setAdd (setDelete (o.getD []) c) x) := by
    simp [remTransform, setDelete_setAdd_comm h, isEmpty_setAdd]
  rw [hL]
  cases o with
  | none => simp [remTransform, setDelete]
  | some s =>
      by_cases he : (setDelete s c).isEmpty
      · have hnil : setDelete s c = [] := by
          cases hsd : setDelete s c with
          | nil => rfl
          | cons a l => rw [hsd] at he; simp at he
        simp [remTransform, he, hnil]
      · simp [remTransform, he]

/-- Deleting one session's pool memberships and adding a different
session's memberships commute, pointwise on every pool key. -/
theorem pools_remove_add_comm {ps : List (String × List String)}
    {x c : ClientInfo} (h : x.sessionId ≠ c.sessionId) (k : String) :
    mapGet (removeInterestPools (addInterestPools ps x) c) k
      = mapGet (addInterestPools (removeInterestPools ps c) x) k := by
  simp only [mapGet_removeInterestPools, mapGet_addInterestPools]
  by_cases ha : k ∈ addKeysOf x.interests
  · by_cases hr : k ∈ c.interests.map jsToLower
    · simp only [ha, hr, if_true, if_pos]
      exact remTransform_setAdd_comm h
    · simp [ha, hr]
  · by_cases hr : k ∈ c.interests.map jsToLower
    · simp [ha, hr]
    · simp [ha, hr]

theorem erase_append_singleton_ne {l : List String} {a b : String} (h : b ≠ a) :
    (l ++ [b]).erase a = l.erase a ++ [b] := by
  induction l with
  | nil => simp [List.erase_cons, h]
  | cons x t ih =>
      by_cases hx : x = a
      · simp [List.erase_cons, hx]
      · simp [List.erase_cons, hx, ih]

/-- Pointwise equality of queue states: the same FIFO for every mode and
the same pool contents for every mode and key. -/
def queuesEquiv (q1 q2 : MatchmakingQueues) : Prop :=
  (∀ m, waitingOf q1 m = waitingOf q2 m) ∧
    (∀ m k, mapGet (poolsOf q1 m) k = mapGet (poolsOf q2 m) k)

/-- Claim C5 counterexample: after a and b are paired, a transport close
of a's connection leaves b re-enqueued in the FIFO, while an explicit
`leave` from a leaves b out of all queues — the resulting queue states
differ, so disconnect is not handled identically to leave. -/
theorem c5_close_differs_from_leave_counterexample :
    (step pairSt (.close 1)).1.queues.waiting_text = [bId] ∧
      (step pairSt (.leave aId)).1.queues.waiting_text = [] ∧
      (step pairSt (.close 1)).1.queues ≠ (step pairSt (.leave aId)).1.queues :=
  ⟨by decide, by decide, by decide⟩

/-- Claim C5 (amended): a transport close is handled like `leave` —
identical registry state and an analogous peer notification — except
that the paired peer is additionally re-enqueued: the queue state after
the close is pointwise the queue state after the leave with the peer
enqueued at the tail. -/
theorem c5_close_equals_leave_plus_peer_reenqueue
    {st : ServerState} {w : Nat} {sid p : String} {c peer : ClientInfo}
    (hfind : findByWs st.sessionIdToClient w = some (sid, c))
    (hc : mapGet st.sessionIdToClient sid = some c)
    (hp : c.pairedWith = some p)
    (hpeer : mapGet st.sessionIdToClient p = some peer)
    (hpid : peer.sessionId = p)
    (hcid : c.sessionId = sid)
    (hne : p ≠ sid) :
    (handleClose st w).1.sessionIdToClient
        = (handleLeave st sid).1.sessionIdToClient ∧
      queuesEquiv (handleClose st w).1.queues
        (enqueueClient (handleLeave st sid).1.queues
          { peer with pairedWith := none }) ∧
      (handleClose st w).2 = [.debug peer.ws "peer_disconnected"] ∧
      (handleLeave st sid).2 = [.debug peer.ws "peer_left"] := by
  have hneid : peer.sessionId ≠ c.sessionId := by
    rw [hpid, hcid]
    exact hne
  simp only [handleClose, hfind, hp, hpeer, handleLeave, hc]
  refine ⟨by trivial, ⟨?_, ?_⟩, by trivial, by trivial⟩
  · intro m
    rw [waitingOf_removeFromQueues, waitingOf_enqueueClient,
        waitingOf_enqueueClient, waitingOf_removeFromQueues]
    by_cases hmc : m = c.mode
    · by_cases hmp : m = ({ peer with pairedWith := none } : ClientInfo).mode
      · rw [if_pos hmc, if_pos hmp, if_pos hmp, if_pos hmc]
        exact erase_append_singleton_ne hneid
      · rw [if_pos hmc, if_neg hmp, if_neg hmp, if_pos hmc]
    · by_cases hmp : m = ({ peer with pairedWith := none } : ClientInfo).mode
      · rw [if_neg hmc, if_pos hmp, if_pos hmp, if_neg hmc]
      · rw [if_neg hmc, if_neg hmp, if_neg hmp, if_neg hmc]
  · intro m k
    rw [poolsOf_removeFromQueues, poolsOf_enqueueClient,
        poolsOf_enqueueClient, poolsOf_removeFromQueues]
    by_cases hmc : m = c.mode
    · by_cases hmp : m = ({ peer with pairedWith := none } : ClientInfo).mode
      · rw [if_pos hmc, if_pos hmp, if_pos hmp, if_pos hmc]
        exact pools_remove_add_comm hneid k
      · rw [if_pos hmc, if_neg hmp, if_neg hmp, if_pos hmc]
    · by_cases hmp : m = ({ peer with pairedWith := none } : ClientInfo).mode
      · rw [if_neg hmc, if_pos hmp, if_pos hmp, if_neg hmc]
      · rw [if_neg hmc, if_neg hmp, if_neg hmp, if_neg hmc]

/-- Witness for C5's amended theorem at the concrete paired state. -/
theorem c5_close_witness :
    (handleClose pairSt 1).1.sessionIdToClient
        = (handleLeave pairSt aId).1.sessionIdToClient ∧
      queuesEquiv (handleClose pairSt 1).1.queues
        (enqueueClient (handleLeave pairSt aId).1.queues
          { pairB with pairedWith := none }) ∧
      (handleClose pairSt 1).2 = [.debug pairB.ws "peer_disconnected"] ∧
      (handleLeave pairSt aId).2 = [.debug pairB.ws "peer_left"] :=
  @c5_close_equals_leave_plus_peer_reenqueue pairSt 1 aId bId pairA pairB
    (by decide) (by decide) (by decide) (by decide) (by decide) (by decide)
    (by decide)

/-- Witness for C10's theorem at a concrete input. -/
theorem c10_tryMatch_witness :
    "b" = egB.sessionId ∧ "a" ≠ egB.sessionId ∧
      ∃ other, mapGet egReg "a" = some other ∧ other.mode = egB.mode :=
  c10_tryMatch_partner_distinct_registered_same_mode
    (show tryMatch egQ egB egReg = some (("b", "a"), egQrest) by decide)

end Doople
